import Mathlib

/-!
Shallow embedding of the procedural forest terrain generator
(`src/src/main.py`) and verification of its specification claims.

Python floats are modelled by real numbers; Python's float modulo
`a % b` (for `b > 0`) is `a - b * ⌊a / b⌋`; Python's `int()` on a float
truncates toward zero; Python's integer `^` is two's-complement XOR on
unbounded integers, which is exactly `Int.xor`.
-/

namespace Forest

/-! ## Constants (main.py lines 12-28) -/

def TILE_WIDTH : ℤ := 128

def TILE_HEIGHT : ℤ := 64

def CHUNK_SIZE : ℤ := 16

def RENDER_DISTANCE : ℕ := 4

def MASTER_SEED : ℤ := 12345

/-! ## Angle normalization: Python `v % (2 * pi)` -/

/-- Python float modulo by `2 * pi`: result in `[0, 2π)`. -/
noncomputable def normAngle (v : ℝ) : ℝ :=
  v - 2 * Real.pi * ⌊v / (2 * Real.pi)⌋

/-! ## QuantumState (main.py lines 37-53) -/

structure QuantumState where
  phase : ℝ

/-- `QuantumState.__init__` (line 41). -/
noncomputable def QuantumState.init (x y : ℤ) : QuantumState :=
  ⟨normAngle (x * 0.1234 + y * 0.4321 + Real.sin (x * 0.1) * Real.cos (y * 0.1))⟩

/-- `QuantumState.hadamard` (line 45). -/
noncomputable def QuantumState.hadamard (q : QuantumState) : QuantumState :=
  ⟨normAngle (q.phase + Real.pi / 4)⟩

/-- `QuantumState.rotate` (line 49). -/
noncomputable def QuantumState.rotate (q : QuantumState) (angle : ℝ) : QuantumState :=
  ⟨normAngle (q.phase + angle)⟩

/-- `QuantumState.measure` (line 53): a pure read, returns a number and
leaves the state untouched. -/
noncomputable def QuantumState.measure (q : QuantumState) : ℝ :=
  (Real.cos q.phase + 1) / 2

/-! ## Feature kinds: the closed set of terrain element strings appearing
in the source (generators, collision table, texture table) -/

inductive FeatureKind where
  | treeBlocksFall
  | treeDefaultFall
  | treeFatFall
  | treeThinFall
  | treeOakFall
  | treeTallFall
  | stoneTall
  | stoneLarge
  | bushSmall
  | log
  | logLarge
  deriving DecidableEq

/-! ## Quantum terrain generator (main.py lines 56-86) -/

/-- The angle passed to the first `rotate` call (line 60): the sine term is
scaled by the literal `3.14`. -/
noncomputable def qtRot1Angle (x y : ℤ) : ℝ :=
  normAngle (x * 0.314 + y * 0.271 + Real.sin (x * 0.05) * 3.14)

/-- `density` of `quantum_terrain` (lines 58-64). -/
noncomputable def qtDensity (x y : ℤ) : ℝ :=
  ((((QuantumState.init x y).hadamard.rotate (qtRot1Angle x y)).hadamard.rotate
      (normAngle (x * y * 0.001))).measure)

/-- `variation` of `quantum_terrain` (lines 66-69). -/
noncomputable def qtVariation (x y : ℤ) : ℝ :=
  (((QuantumState.init y x).hadamard).rotate (x * 0.1)).measure

/-- `combined` of `quantum_terrain` (line 71). -/
noncomputable def qtCombined (x y : ℤ) : ℝ :=
  (qtDensity x y + qtVariation x y * 0.5) / 1.5

/-- The threshold band mapping of `quantum_terrain` (lines 73-86), with the
`combined` score abstracted as an argument. -/
noncomputable def classifyBand (combined : ℝ) (x y : ℤ) : Option FeatureKind :=
  if combined < 0.65 then none
  else if combined < 0.68 then some .treeThinFall
  else if combined < 0.70 then some .treeDefaultFall
  else if combined < 0.72 then some .treeOakFall
  else if combined < 0.75 then some .stoneLarge
  else if combined < 0.77 then some .log
  else if (x + y) % 3 = 0 then some .stoneTall
  else some .bushSmall

/-- `quantum_terrain` (lines 56-86). -/
noncomputable def quantum_terrain (x y : ℤ) : Option FeatureKind :=
  classifyBand (qtCombined x y) x y

/-! ## Spec-side quantum pipeline (spec 4.2, quantum mode): definitions
following the specification wording, for refinement comparison with the
source-derived pipeline -/

/-- From the spec: `angle = normalize(x*0.314 + y*0.271 + sin(x*0.05)*π)`. -/
noncomputable def specRot1AnglePi (x y : ℤ) : ℝ :=
  normAngle (x * 0.314 + y * 0.271 + Real.sin (x * 0.05) * Real.pi)

/-- From the spec: steps 1-3 of §4.2 quantum mode, sine term scaled by `π`. -/
noncomputable def specCombinedPi (x y : ℤ) : ℝ :=
  let q1 := (QuantumState.init x y).hadamard
  let q2 := q1.rotate (specRot1AnglePi x y)
  let q3 := q2.hadamard
  let q4 := q3.rotate (normAngle (x * y * 0.001))
  let density := q4.measure
  let p1 := (QuantumState.init y x).hadamard
  let p2 := p1.rotate (x * 0.1)
  let variation := p2.measure
  (density + variation * 0.5) / 1.5

/-- The spec pipeline with the sine term scaled by the literal `3.14`
(the amendment forced by the source, line 60). -/
noncomputable def specCombined314 (x y : ℤ) : ℝ :=
  let q1 := (QuantumState.init x y).hadamard
  let q2 := q1.rotate (normAngle (x * 0.314 + y * 0.271 + Real.sin (x * 0.05) * 3.14))
  let q3 := q2.hadamard
  let q4 := q3.rotate (normAngle (x * y * 0.001))
  let density := q4.measure
  let p1 := (QuantumState.init y x).hadamard
  let p2 := p1.rotate (x * 0.1)
  let variation := p2.measure
  (density + variation * 0.5) / 1.5

/-! ## Isometric projection (main.py lines 271-282) -/

/-- `iso_to_screen` (lines 271-275). -/
noncomputable def iso_to_screen (x y : ℤ) : ℝ × ℝ :=
  ((x - y) * ((TILE_WIDTH : ℝ) / 2), (x + y) * ((TILE_HEIGHT : ℝ) / 2))

/-- Python `int()` applied to a float: truncation toward zero. -/
noncomputable def truncInt (r : ℝ) : ℤ :=
  if 0 ≤ r then ⌊r⌋ else ⌈r⌉

/-- `screen_to_chunk` (lines 277-282): the source applies `int(...)`, i.e.
truncation toward zero, to each quotient. -/
noncomputable def screen_to_chunk (sx sy : ℝ) : ℤ × ℤ :=
  (truncInt (sx / ((TILE_WIDTH : ℝ) * (CHUNK_SIZE : ℝ) / 2)),
   truncInt (sy / ((TILE_HEIGHT : ℝ) * (CHUNK_SIZE : ℝ) / 2)))

/-! ## Chunk seeding (main.py lines 284-293) -/

/-- Python float modulo for a positive real modulus. -/
noncomputable def fmodReal (a b : ℝ) : ℝ := a - b * ⌊a / b⌋

/-- `get_chunk_seed` (lines 284-293). The XOR acts on unbounded signed
integers exactly as Python's `^`. The final `int(... % (2**31 - 1))`
truncates a non-negative float, i.e. takes its floor. -/
noncomputable def get_chunk_seed (cx cy : ℤ) : ℤ :=
  let centerX := cx * CHUNK_SIZE + CHUNK_SIZE / 2
  let centerY := cy * CHUNK_SIZE + CHUNK_SIZE / 2
  let combined : ℝ :=
    (MASTER_SEED : ℝ) * Real.sin (centerX * 0.1) * Real.cos (centerY * 0.1)
      + ((Int.xor (centerX * 73856093) (centerY * 19349663) : ℤ) : ℝ)
  ⌊fmodReal |combined * 1000| ((2 : ℝ) ^ 31 - 1)⌋

/-! ## Collision classification and hitboxes (main.py lines 295-352) -/

/-- Models Python's substring test `'tree' in element` over the closed set of
element strings occurring in the source: exactly the `tree_*` kinds contain
the substring `tree`. -/
def isTreeKind : FeatureKind → Bool
  | .treeBlocksFall | .treeDefaultFall | .treeFatFall
  | .treeThinFall | .treeOakFall | .treeTallFall => true
  | _ => false

/-- `has_collision` (lines 345-352): membership in the literal set, which
lists all six tree strings, both stones and both logs. -/
def has_collision : FeatureKind → Bool
  | .treeBlocksFall | .treeFatFall | .treeThinFall | .treeTallFall
  | .treeDefaultFall | .treeOakFall
  | .stoneTall | .stoneLarge | .log | .logLarge => true
  | .bushSmall => false

/-- `get_hitbox_for_element` (lines 295-343): four corner points in local
(feature-centred) space. -/
noncomputable def get_hitbox_for_element (k : FeatureKind) : List (ℝ × ℝ) :=
  let hw : ℝ := (TILE_WIDTH : ℝ) * 0.3
  let hh : ℝ := (TILE_HEIGHT : ℝ) * 0.3
  if isTreeKind k then
    [(-hw * 0.45, -hh * 3.0), (hw * 0.45, -hh * 3.0),
     (hw * 0.45, hh * 0.8), (-hw * 0.45, hh * 0.8)]
  else if k = .stoneLarge then
    [(-hw * 0.8, -hh * 1.2), (hw * 0.8, -hh * 1.2),
     (hw * 0.8, hh * 0.6), (-hw * 0.8, hh * 0.6)]
  else if k = .log ∨ k = .logLarge then
    [(-hw * 0.9, -hh * 1.0), (hw * 0.9, -hh * 1.0),
     (hw * 0.9, hh * 0.5), (-hw * 0.9, hh * 0.5)]
  else if k = .stoneTall then
    [(-hw * 0.6, -hh * 0.8), (hw * 0.6, -hh * 0.8),
     (hw * 0.6, hh * 0.4), (-hw * 0.6, hh * 0.4)]
  else
    [(-hw / 2, -hh / 2), (hw / 2, -hh / 2), (hw / 2, hh / 2), (-hw / 2, hh / 2)]

/-- The feature-kind keys of the texture table built by `load_textures`
(lines 207-229): every kind except `tree_tall_fall`, which is never
loaded. -/
def allTextures : List FeatureKind :=
  [.treeBlocksFall, .treeDefaultFall, .treeFatFall, .treeThinFall, .treeOakFall,
   .stoneTall, .stoneLarge, .bushSmall, .log, .logLarge]

/-! ## Terrain element generation (main.py lines 354-382). The
`random.Random(seed)` uniform generator is external library state; it is
modelled as a stream of draws consumed in the source order -/

inductive Mode where
  | quantum
  | random
  deriving DecidableEq

/-- Advance the draw stream by one consumed value. -/
def shift (s : ℕ → ℝ) : ℕ → ℝ := fun n => s (n + 1)

/-- `generate_terrain_element` (lines 354-382): returns the chosen element
and the remaining draw stream. Quantum mode consumes no draws. -/
noncomputable def generate_terrain_element (mode : Mode) (x y : ℤ) (s : ℕ → ℝ) :
    Option FeatureKind × (ℕ → ℝ) :=
  match mode with
  | .quantum => (quantum_terrain x y, s)
  | .random =>
    let noise := s 0
    if noise < 0.35 then
      let t := s 1
      (some (if t < 0.3 then .treeBlocksFall
             else if t < 0.5 then .treeOakFall
             else if t < 0.7 then .treeDefaultFall
             else if t < 0.85 then .treeFatFall
             else .treeThinFall), shift (shift s))
    else if noise < 0.40 then
      (some (if s 1 < 0.7 then .stoneTall else .stoneLarge), shift (shift s))
    else if noise < 0.43 then
      (some (if s 1 < 0.6 then .log else .logLarge), shift (shift s))
    else if noise < 0.48 then
      (some .bushSmall, shift s)
    else
      (none, shift s)

/-! ## Chunk creation (main.py lines 384-439) -/

/-- A ground sprite placement: its projected position (lines 406-412). -/
structure GroundPlacement where
  pos : ℝ × ℝ

/-- A feature sprite placement (lines 414-437): projected position, kind,
collidability, and the hitbox points when collidable. -/
structure FeaturePlacement where
  pos : ℝ × ℝ
  kind : FeatureKind
  collidable : Bool
  hitbox : Option (List (ℝ × ℝ))

/-- The placements a chunk owns, by scene layer. -/
structure ChunkData where
  ground : List GroundPlacement
  objects : List FeaturePlacement
  walls : List FeaturePlacement

/-- The feature placement built for element `e` at tile `(x, y)`
(lines 417-437). -/
noncomputable def mkFeature (x y : ℤ) (e : FeatureKind) : FeaturePlacement :=
  if has_collision e then
    ⟨iso_to_screen x y, e, true, some (get_hitbox_for_element e)⟩
  else
    ⟨iso_to_screen x y, e, false, none⟩

/-- Processing of one tile of `create_chunk` (lines 401-437): always a ground
placement; a feature placement only when the generator yields an element
*and* the element has a loaded texture (`element and element in
self.textures`, line 416); collidable features carry their hitbox. -/
noncomputable def processTile (tex : List FeatureKind) (mode : Mode)
    (tx ty : ℤ) (s : ℕ → ℝ) :
    (GroundPlacement × Option FeaturePlacement) × (ℕ → ℝ) :=
  let sc := iso_to_screen tx ty
  let g : GroundPlacement := ⟨sc⟩
  let r := generate_terrain_element mode tx ty s
  match r.1 with
  | none => ((g, none), r.2)
  | some e =>
    if e ∈ tex then
      if has_collision e then
        ((g, some ⟨sc, e, true, some (get_hitbox_for_element e)⟩), r.2)
      else
        ((g, some ⟨sc, e, false, none⟩), r.2)
    else ((g, none), r.2)

/-- The tile iteration order of `create_chunk` (lines 399-400): `x` in
`range(CHUNK_SIZE)` outer, `y` inner. -/
def tileOffsets : List (ℕ × ℕ) :=
  (List.range 16).flatMap (fun x => (List.range 16).map (fun y => (x, y)))

/-- One fold step of chunk creation: process a tile, append its placements
to the per-layer lists (walls when collidable, objects otherwise). -/
noncomputable def chunkStep (tex : List FeatureKind) (mode : Mode) (sx sy : ℤ)
    (acc : ChunkData × (ℕ → ℝ)) (xy : ℕ × ℕ) : ChunkData × (ℕ → ℝ) :=
  let p := processTile tex mode (sx + xy.1) (sy + xy.2) acc.2
  match p.1.2 with
  | none => (⟨acc.1.ground ++ [p.1.1], acc.1.objects, acc.1.walls⟩, p.2)
  | some fp =>
    if fp.collidable then
      (⟨acc.1.ground ++ [p.1.1], acc.1.objects, acc.1.walls ++ [fp]⟩, p.2)
    else
      (⟨acc.1.ground ++ [p.1.1], acc.1.objects ++ [fp], acc.1.walls⟩, p.2)

/-- `create_chunk` (lines 384-439), with the texture table, generation mode
and the seeded draw stream explicit. -/
noncomputable def create_chunk (tex : List FeatureKind) (mode : Mode)
    (cx cy : ℤ) (s : ℕ → ℝ) : ChunkData :=
  (tileOffsets.foldl (chunkStep tex mode (cx * CHUNK_SIZE) (cy * CHUNK_SIZE))
    (⟨[], [], []⟩, s)).1

/-- The objects-layer contribution of a processed tile (lines 434-437). -/
noncomputable def featObjects : Option FeaturePlacement → List FeaturePlacement
  | none => []
  | some fp => if fp.collidable then [] else [fp]

/-- The walls-layer contribution of a processed tile (lines 425-433). -/
noncomputable def featWalls : Option FeaturePlacement → List FeaturePlacement
  | none => []
  | some fp => if fp.collidable then [fp] else []

/-! ## Chunk store and streaming (main.py lines 188-189, 441-465). The
global mode flag, texture table and the seed-to-stream function of
`random.Random` are explicit parameters, per spec section 9 -/

structure TerrainState where
  chunks : List ((ℤ × ℤ) × ChunkData)
  sceneGround : List GroundPlacement
  sceneObjects : List FeaturePlacement
  sceneWalls : List FeaturePlacement

/-- The needed window of `update_chunks` (lines 448-451): all
`(cx+dx, cy+dy)` with `dx, dy` in `[-r, r]`. -/
def window (c : ℤ × ℤ) (r : ℕ) : List (ℤ × ℤ) :=
  (List.range (2 * r + 1)).flatMap (fun (dx : ℕ) =>
    (List.range (2 * r + 1)).map (fun (dy : ℕ) =>
      (c.1 + (dx : ℤ) - (r : ℤ), c.2 + (dy : ℤ) - (r : ℤ))))

/-- One creation step of `update_chunks` (lines 463-465): create the chunk if
its coordinate is not yet resident; creation also appends the new placements
to the scene layers (lines 406-437). -/
noncomputable def createStep (mk : ℤ → ℕ → ℝ) (tex : List FeatureKind)
    (mode : Mode) (st : TerrainState) (k : ℤ × ℤ) : TerrainState :=
  if k ∈ st.chunks.map Prod.fst then st
  else
    let cd := create_chunk tex mode k.1 k.2 (mk (get_chunk_seed k.1 k.2))
    ⟨st.chunks ++ [(k, cd)], st.sceneGround ++ cd.ground,
     st.sceneObjects ++ cd.objects, st.sceneWalls ++ cd.walls⟩

/-- `update_chunks` (lines 441-465) with the viewpoint chunk and render
distance as arguments (the source calls it with the camera's chunk and
`RENDER_DISTANCE`): evict resident chunks outside the window from the dict,
then create every missing window chunk. Eviction only deletes the dict
entry; it does not touch the scene layers. -/
noncomputable def update_chunks (mk : ℤ → ℕ → ℝ) (tex : List FeatureKind)
    (mode : Mode) (st : TerrainState) (c : ℤ × ℤ) (r : ℕ) : TerrainState :=
  let needed := window c r
  let kept := st.chunks.filter (fun p => p.1 ∈ needed)
  needed.foldl (createStep mk tex mode)
    ⟨kept, st.sceneGround, st.sceneObjects, st.sceneWalls⟩

/-- Dict lookup in `self.chunks`. -/
def lookupChunk (k : ℤ × ℤ) : List ((ℤ × ℤ) × ChunkData) → Option ChunkData
  | [] => none
  | p :: ps => if p.1 = k then some p.2 else lookupChunk k ps

/-! ## Lemmas: angle normalization and float modulo -/

lemma two_pi_pos : (0 : ℝ) < 2 * Real.pi := by positivity

lemma normAngle_eq_fract (v : ℝ) :
    normAngle v = 2 * Real.pi * Int.fract (v / (2 * Real.pi)) := by
  unfold normAngle Int.fract
  rw [mul_sub, mul_div_cancel₀ _ (ne_of_gt two_pi_pos)]

lemma normAngle_nonneg (v : ℝ) : 0 ≤ normAngle v := by
  rw [normAngle_eq_fract]
  exact mul_nonneg (le_of_lt two_pi_pos) (Int.fract_nonneg _)

lemma normAngle_lt_two_pi (v : ℝ) : normAngle v < 2 * Real.pi := by
  rw [normAngle_eq_fract]
  calc 2 * Real.pi * Int.fract (v / (2 * Real.pi))
      < 2 * Real.pi * 1 := by
        exact mul_lt_mul_of_pos_left (Int.fract_lt_one _) two_pi_pos
    _ = 2 * Real.pi := mul_one _

lemma normAngle_eq_self {v : ℝ} (h0 : 0 ≤ v) (h2 : v < 2 * Real.pi) :
    normAngle v = v := by
  unfold normAngle
  have hfl : ⌊v / (2 * Real.pi)⌋ = 0 := by
    rw [Int.floor_eq_zero_iff]
    constructor
    · exact div_nonneg h0 (le_of_lt two_pi_pos)
    · rw [div_lt_one two_pi_pos]
      exact h2
  rw [hfl]
  push_cast
  ring

lemma fmodReal_eq_fract (a b : ℝ) (hb : b ≠ 0) :
    fmodReal a b = b * Int.fract (a / b) := by
  unfold fmodReal Int.fract
  rw [mul_sub, mul_div_cancel₀ _ hb]

lemma fmodReal_nonneg (a : ℝ) {b : ℝ} (hb : 0 < b) : 0 ≤ fmodReal a b := by
  rw [fmodReal_eq_fract a b (ne_of_gt hb)]
  exact mul_nonneg (le_of_lt hb) (Int.fract_nonneg _)

lemma fmodReal_lt (a : ℝ) {b : ℝ} (hb : 0 < b) : fmodReal a b < b := by
  rw [fmodReal_eq_fract a b (ne_of_gt hb)]
  calc b * Int.fract (a / b) < b * 1 := mul_lt_mul_of_pos_left (Int.fract_lt_one _) hb
    _ = b := mul_one b

/-! ## Lemmas: single-tile processing and chunk creation -/

lemma processTile_eq (tex : List FeatureKind) (mode : Mode) (tx ty : ℤ)
    (s : ℕ → ℝ) :
    processTile tex mode tx ty s =
      ((⟨iso_to_screen tx ty⟩,
        match (generate_terrain_element mode tx ty s).1 with
        | none => none
        | some e => if e ∈ tex then some (mkFeature tx ty e) else none),
       (generate_terrain_element mode tx ty s).2) := by
  cases h : (generate_terrain_element mode tx ty s).1 with
  | none =>
    simp only [processTile, h]
  | some e =>
    simp only [processTile, h]
    by_cases ht : e ∈ tex
    · simp only [if_pos ht, mkFeature]
      by_cases hc : has_collision e
      · simp [hc]
      · simp [hc]
    · simp only [if_neg ht]

lemma chunkStep_eq (tex : List FeatureKind) (mode : Mode) (sx sy : ℤ)
    (acc : ChunkData × (ℕ → ℝ)) (xy : ℕ × ℕ) :
    chunkStep tex mode sx sy acc xy =
      (⟨acc.1.ground ++ [(processTile tex mode (sx + xy.1) (sy + xy.2) acc.2).1.1],
        acc.1.objects ++ featObjects (processTile tex mode (sx + xy.1) (sy + xy.2) acc.2).1.2,
        acc.1.walls ++ featWalls (processTile tex mode (sx + xy.1) (sy + xy.2) acc.2).1.2⟩,
       (processTile tex mode (sx + xy.1) (sy + xy.2) acc.2).2) := by
  simp only [chunkStep]
  cases h : (processTile tex mode (sx + xy.1) (sy + xy.2) acc.2).1.2 with
  | none => simp [h, featObjects, featWalls]
  | some fp =>
    by_cases hc : fp.collidable
    · simp [h, hc, featObjects, featWalls]
    · simp [h, hc, featObjects, featWalls]

lemma processTile_fst_fst (tex : List FeatureKind) (mode : Mode) (tx ty : ℤ)
    (s : ℕ → ℝ) :
    (processTile tex mode tx ty s).1.1 = ⟨iso_to_screen tx ty⟩ := by
  rw [processTile_eq]

lemma processTile_snd (tex : List FeatureKind) (mode : Mode) (tx ty : ℤ)
    (s : ℕ → ℝ) :
    (processTile tex mode tx ty s).2 = (generate_terrain_element mode tx ty s).2 := by
  rw [processTile_eq]

lemma foldl_chunkStep_ground (mode : Mode) (sx sy : ℤ) :
    ∀ (l : List (ℕ × ℕ)) (tex tex2 : List FeatureKind) (cd1 cd2 : ChunkData)
      (s : ℕ → ℝ), cd1.ground = cd2.ground →
      (l.foldl (chunkStep tex mode sx sy) (cd1, s)).1.ground =
        (l.foldl (chunkStep tex2 mode sx sy) (cd2, s)).1.ground ∧
      (l.foldl (chunkStep tex mode sx sy) (cd1, s)).2 =
        (l.foldl (chunkStep tex2 mode sx sy) (cd2, s)).2 := by
  intro l
  induction l with
  | nil =>
    intro tex tex2 cd1 cd2 s h
    exact ⟨h, rfl⟩
  | cons xy l ih =>
    intro tex tex2 cd1 cd2 s h
    rw [List.foldl_cons, List.foldl_cons]
    have hs : (chunkStep tex mode sx sy (cd1, s) xy).2 =
        (chunkStep tex2 mode sx sy (cd2, s) xy).2 := by
      rw [chunkStep_eq, chunkStep_eq]
      simp only [processTile_snd]
    have hg : (chunkStep tex mode sx sy (cd1, s) xy).1.ground =
        (chunkStep tex2 mode sx sy (cd2, s) xy).1.ground := by
      rw [chunkStep_eq, chunkStep_eq]
      simp only [processTile_fst_fst]
      rw [h]
    have e1 : chunkStep tex mode sx sy (cd1, s) xy =
        ((chunkStep tex mode sx sy (cd1, s) xy).1,
         (chunkStep tex2 mode sx sy (cd2, s) xy).2) := Prod.ext_iff.mpr ⟨rfl, hs⟩
    rw [e1]
    exact ih tex tex2 (chunkStep tex mode sx sy (cd1, s) xy).1
      (chunkStep tex2 mode sx sy (cd2, s) xy).1
      (chunkStep tex2 mode sx sy (cd2, s) xy).2 hg

lemma create_chunk_ground_tex (tex tex2 : List FeatureKind) (mode : Mode)
    (cx cy : ℤ) (s : ℕ → ℝ) :
    (create_chunk tex mode cx cy s).ground =
      (create_chunk tex2 mode cx cy s).ground := by
  unfold create_chunk
  exact (foldl_chunkStep_ground mode _ _ tileOffsets tex tex2 ⟨[], [], []⟩
    ⟨[], [], []⟩ s rfl).1

lemma processTile_quantum_fst (tex : List FeatureKind) (tx ty : ℤ)
    (s1 s2 : ℕ → ℝ) :
    (processTile tex .quantum tx ty s1).1 = (processTile tex .quantum tx ty s2).1 := by
  rw [processTile_eq, processTile_eq]
  rfl

lemma chunkStep_quantum_snd (tex : List FeatureKind) (sx sy : ℤ)
    (cd : ChunkData) (s : ℕ → ℝ) (xy : ℕ × ℕ) :
    (chunkStep tex .quantum sx sy (cd, s) xy).2 = s := by
  rw [chunkStep_eq, processTile_snd]
  rfl

lemma chunkStep_quantum_fst (tex : List FeatureKind) (sx sy : ℤ)
    (cd : ChunkData) (s1 s2 : ℕ → ℝ) (xy : ℕ × ℕ) :
    (chunkStep tex .quantum sx sy (cd, s1) xy).1 =
      (chunkStep tex .quantum sx sy (cd, s2) xy).1 := by
  rw [chunkStep_eq, chunkStep_eq]
  have hp := processTile_quantum_fst tex (sx + xy.1) (sy + xy.2) s1 s2
  simp only at hp ⊢
  rw [hp]

lemma foldl_chunkStep_quantum (tex : List FeatureKind) (sx sy : ℤ) :
    ∀ (l : List (ℕ × ℕ)) (cd : ChunkData) (s1 s2 : ℕ → ℝ),
      (l.foldl (chunkStep tex .quantum sx sy) (cd, s1)).1 =
        (l.foldl (chunkStep tex .quantum sx sy) (cd, s2)).1 := by
  intro l
  induction l with
  | nil =>
    intro cd s1 s2
    rfl
  | cons xy l ih =>
    intro cd s1 s2
    rw [List.foldl_cons, List.foldl_cons]
    have e1 : chunkStep tex .quantum sx sy (cd, s1) xy =
        ((chunkStep tex .quantum sx sy (cd, s2) xy).1, s1) :=
      Prod.ext_iff.mpr ⟨chunkStep_quantum_fst tex sx sy cd s1 s2 xy,
        chunkStep_quantum_snd tex sx sy cd s1 xy⟩
    have e2 : chunkStep tex .quantum sx sy (cd, s2) xy =
        ((chunkStep tex .quantum sx sy (cd, s2) xy).1, s2) :=
      Prod.ext_iff.mpr ⟨rfl, chunkStep_quantum_snd tex sx sy cd s2 xy⟩
    rw [e1, e2]
    exact ih _ s1 s2

lemma create_chunk_quantum_stream (tex : List FeatureKind) (cx cy : ℤ)
    (s1 s2 : ℕ → ℝ) :
    create_chunk tex .quantum cx cy s1 = create_chunk tex .quantum cx cy s2 := by
  unfold create_chunk
  exact foldl_chunkStep_quantum tex _ _ tileOffsets ⟨[], [], []⟩ s1 s2

/-! ## Lemmas: the needed window -/

lemma mem_window {c : ℤ × ℤ} {r : ℕ} {k : ℤ × ℤ} :
    k ∈ window c r ↔
      c.1 - r ≤ k.1 ∧ k.1 ≤ c.1 + r ∧ c.2 - r ≤ k.2 ∧ k.2 ≤ c.2 + r := by
  unfold window
  constructor
  · intro hk
    obtain ⟨dx, hdx, hk2⟩ := List.mem_flatMap.mp hk
    obtain ⟨dy, hdy, hk3⟩ := List.mem_map.mp hk2
    rw [List.mem_range] at hdx hdy
    subst hk3
    dsimp only
    omega
  · rintro ⟨h1, h2, h3, h4⟩
    refine List.mem_flatMap.mpr ⟨(k.1 - c.1 + r).toNat, List.mem_range.mpr (by omega),
      List.mem_map.mpr ⟨(k.2 - c.2 + r).toNat, List.mem_range.mpr (by omega), ?_⟩⟩
    rw [Prod.ext_iff]
    dsimp only
    constructor <;> omega

lemma window_nodup (c : ℤ × ℤ) (r : ℕ) : (window c r).Nodup := by
  unfold window
  rw [List.nodup_flatMap]
  constructor
  · intro dx _
    refine List.Nodup.map ?_ (List.nodup_range _)
    intro a b hab
    have h2 := congrArg Prod.snd hab
    dsimp only at h2
    omega
  · refine List.Pairwise.imp ?_ (List.nodup_range _)
    intro a b hne p hpa hpb
    obtain ⟨da, -, hda⟩ := List.mem_map.mp hpa
    obtain ⟨db, -, hdb⟩ := List.mem_map.mp hpb
    rw [← hda] at hdb
    have h2 := congrArg Prod.fst hdb
    dsimp only at h2
    omega

lemma window_length (c : ℤ × ℤ) (r : ℕ) :
    (window c r).length = (2 * r + 1) ^ 2 := by
  unfold window
  rw [List.length_flatMap]
  have hm : (List.map (List.length ∘ fun (dx : ℕ) =>
      (List.range (2 * r + 1)).map (fun (dy : ℕ) =>
        (c.1 + (dx : ℤ) - (r : ℤ), c.2 + (dy : ℤ) - (r : ℤ))))
      (List.range (2 * r + 1))) = List.replicate (2 * r + 1) (2 * r + 1) := by
    rw [List.eq_replicate_iff]
    refine ⟨by simp, ?_⟩
    intro b hb
    simp only [List.mem_map, Function.comp] at hb
    obtain ⟨dx, -, hdx⟩ := hb
    rw [← hdx]
    simp
  rw [hm, List.sum_replicate, smul_eq_mul, sq]

/-! ## Lemmas: the creation fold of `update_chunks` -/

lemma keys_foldl_createStep (mk : ℤ → ℕ → ℝ) (tex : List FeatureKind)
    (mode : Mode) :
    ∀ (l : List (ℤ × ℤ)) (st : TerrainState) (j : ℤ × ℤ),
      j ∈ (l.foldl (createStep mk tex mode) st).chunks.map Prod.fst ↔
        j ∈ st.chunks.map Prod.fst ∨ j ∈ l := by
  intro l
  induction l with
  | nil => simp
  | cons k l ih =>
    intro st j
    rw [List.foldl_cons]
    by_cases hk : k ∈ st.chunks.map Prod.fst
    · rw [show createStep mk tex mode st k = st by
        simp only [createStep, if_pos hk]]
      rw [ih]
      constructor
      · rintro (h | h)
        · exact Or.inl h
        · exact Or.inr (List.mem_cons_of_mem _ h)
      · rintro (h | h)
        · exact Or.inl h
        · rcases List.mem_cons.mp h with rfl | h
          · exact Or.inl hk
          · exact Or.inr h
    · have hstep : createStep mk tex mode st k =
          ⟨st.chunks ++ [(k, create_chunk tex mode k.1 k.2 (mk (get_chunk_seed k.1 k.2)))],
           st.sceneGround ++ (create_chunk tex mode k.1 k.2 (mk (get_chunk_seed k.1 k.2))).ground,
           st.sceneObjects ++ (create_chunk tex mode k.1 k.2 (mk (get_chunk_seed k.1 k.2))).objects,
           st.sceneWalls ++ (create_chunk tex mode k.1 k.2 (mk (get_chunk_seed k.1 k.2))).walls⟩ := by
        simp only [createStep, if_neg hk]
      rw [hstep, ih]
      simp only [List.map_append, List.mem_append, List.map_cons, List.map_nil,
        List.mem_singleton, List.mem_cons]
      tauto

lemma nodup_keys_foldl_createStep (mk : ℤ → ℕ → ℝ) (tex : List FeatureKind)
    (mode : Mode) :
    ∀ (l : List (ℤ × ℤ)) (st : TerrainState),
      (st.chunks.map Prod.fst).Nodup →
      ((l.foldl (createStep mk tex mode) st).chunks.map Prod.fst).Nodup := by
  intro l
  induction l with
  | nil =>
    intro st h
    exact h
  | cons k l ih =>
    intro st hnd
    rw [List.foldl_cons]
    by_cases hk : k ∈ st.chunks.map Prod.fst
    · rw [show createStep mk tex mode st k = st by
        simp only [createStep, if_pos hk]]
      exact ih st hnd
    · apply ih
      simp only [createStep, if_neg hk]
      simp only [List.map_append, List.map_cons, List.map_nil]
      rw [List.nodup_append]
      exact ⟨hnd, List.nodup_singleton _, by simpa using hk⟩

lemma foldl_createStep_no_new (mk : ℤ → ℕ → ℝ) (tex : List FeatureKind)
    (mode : Mode) :
    ∀ (l : List (ℤ × ℤ)) (st : TerrainState),
      (∀ k ∈ l, k ∈ st.chunks.map Prod.fst) →
      l.foldl (createStep mk tex mode) st = st := by
  intro l
  induction l with
  | nil =>
    intro st _
    rfl
  | cons k l ih =>
    intro st h
    rw [List.foldl_cons, show createStep mk tex mode st k = st by
      simp only [createStep, if_pos (h k (List.mem_cons_self k l))]]
    exact ih st (fun j hj => h j (List.mem_cons_of_mem _ hj))

lemma scene_foldl_createStep (mk : ℤ → ℕ → ℝ) (tex : List FeatureKind)
    (mode : Mode) :
    ∀ (l : List (ℤ × ℤ)) (st : TerrainState),
      (∀ p ∈ st.sceneGround, p ∈ (l.foldl (createStep mk tex mode) st).sceneGround) ∧
      (∀ p ∈ st.sceneObjects, p ∈ (l.foldl (createStep mk tex mode) st).sceneObjects) ∧
      (∀ p ∈ st.sceneWalls, p ∈ (l.foldl (createStep mk tex mode) st).sceneWalls) := by
  intro l
  induction l with
  | nil => simp
  | cons k l ih =>
    intro st
    rw [List.foldl_cons]
    by_cases hk : k ∈ st.chunks.map Prod.fst
    · rw [show createStep mk tex mode st k = st by
        simp only [createStep, if_pos hk]]
      exact ih st
    · have h2 := ih (createStep mk tex mode st k)
      refine ⟨fun p hp => h2.1 p ?_, fun p hp => h2.2.1 p ?_, fun p hp => h2.2.2 p ?_⟩ <;>
        simp only [createStep, if_neg hk] <;>
        exact List.mem_append_left _ hp

lemma chunks_foldl_createStep_append (mk : ℤ → ℕ → ℝ) (tex : List FeatureKind)
    (mode : Mode) :
    ∀ (l : List (ℤ × ℤ)) (st : TerrainState),
      ∃ t, (l.foldl (createStep mk tex mode) st).chunks = st.chunks ++ t := by
  intro l
  induction l with
  | nil =>
    intro st
    exact ⟨[], by simp⟩
  | cons k l ih =>
    intro st
    rw [List.foldl_cons]
    by_cases hk : k ∈ st.chunks.map Prod.fst
    · rw [show createStep mk tex mode st k = st by
        simp only [createStep, if_pos hk]]
      exact ih st
    · obtain ⟨t, ht⟩ := ih (createStep mk tex mode st k)
      refine ⟨(k, create_chunk tex mode k.1 k.2 (mk (get_chunk_seed k.1 k.2))) :: t, ?_⟩
      rw [ht]
      simp only [createStep, if_neg hk]
      simp

/-! ## Lemmas: chunk lookup -/

lemma lookupChunk_eq_none {k : ℤ × ℤ} :
    ∀ {l : List ((ℤ × ℤ) × ChunkData)}, k ∉ l.map Prod.fst → lookupChunk k l = none := by
  intro l
  induction l with
  | nil =>
    intro _
    rfl
  | cons p ps ih =>
    intro h
    simp only [List.map_cons, List.mem_cons] at h
    push_neg at h
    simp only [lookupChunk]
    rw [if_neg (fun hh => h.1 hh.symm)]
    exact ih h.2

lemma lookupChunk_append_of_some {k : ℤ × ℤ} {v : ChunkData} :
    ∀ {l1 l2 : List ((ℤ × ℤ) × ChunkData)},
      lookupChunk k l1 = some v → lookupChunk k (l1 ++ l2) = some v := by
  intro l1
  induction l1 with
  | nil =>
    intro l2 h
    exact absurd h (by simp [lookupChunk])
  | cons p ps ih =>
    intro l2 h
    rw [List.cons_append]
    simp only [lookupChunk] at h ⊢
    by_cases hp : p.1 = k
    · rw [if_pos hp] at h ⊢
      exact h
    · rw [if_neg hp] at h ⊢
      exact ih h

lemma lookupChunk_append_of_none {k : ℤ × ℤ} :
    ∀ {l1 l2 : List ((ℤ × ℤ) × ChunkData)},
      lookupChunk k l1 = none → lookupChunk k (l1 ++ l2) = lookupChunk k l2 := by
  intro l1
  induction l1 with
  | nil =>
    intro l2 _
    rfl
  | cons p ps ih =>
    intro l2 h
    rw [List.cons_append]
    simp only [lookupChunk] at h ⊢
    by_cases hp : p.1 = k
    · rw [if_pos hp] at h
      exact absurd h (by simp)
    · rw [if_neg hp] at h ⊢
      exact ih h

lemma lookup_foldl_createStep (mk : ℤ → ℕ → ℝ) (tex : List FeatureKind)
    (mode : Mode) :
    ∀ (l : List (ℤ × ℤ)) (st : TerrainState) (k : ℤ × ℤ),
      k ∈ l → k ∉ st.chunks.map Prod.fst →
      lookupChunk k (l.foldl (createStep mk tex mode) st).chunks =
        some (create_chunk tex mode k.1 k.2 (mk (get_chunk_seed k.1 k.2))) := by
  intro l
  induction l with
  | nil =>
    intro st k hk
    exact absurd hk (by simp)
  | cons j l ih =>
    intro st k hk hnot
    rw [List.foldl_cons]
    by_cases hj : j ∈ st.chunks.map Prod.fst
    · rw [show createStep mk tex mode st j = st by
        simp only [createStep, if_pos hj]]
      rcases List.mem_cons.mp hk with rfl | hkl
      · exact absurd hj hnot
      · exact ih st k hkl hnot
    · have hstep : (createStep mk tex mode st j).chunks =
          st.chunks ++ [(j, create_chunk tex mode j.1 j.2 (mk (get_chunk_seed j.1 j.2)))] := by
        simp only [createStep, if_neg hj]
      by_cases hkj : k = j
      · subst hkj
        have hbase : lookupChunk k (createStep mk tex mode st k).chunks =
            some (create_chunk tex mode k.1 k.2 (mk (get_chunk_seed k.1 k.2))) := by
          rw [hstep, lookupChunk_append_of_none (lookupChunk_eq_none hnot)]
          simp [lookupChunk]
        obtain ⟨t, ht⟩ := chunks_foldl_createStep_append mk tex mode l
          (createStep mk tex mode st k)
        calc lookupChunk k (l.foldl (createStep mk tex mode)
              (createStep mk tex mode st k)).chunks
            = lookupChunk k ((createStep mk tex mode st k).chunks ++ t) := by rw [ht]
          _ = some (create_chunk tex mode k.1 k.2 (mk (get_chunk_seed k.1 k.2))) :=
              lookupChunk_append_of_some hbase
      · have hkl : k ∈ l := by
          rcases List.mem_cons.mp hk with rfl | hkl
          · exact absurd rfl hkj
          · exact hkl
        refine ih (createStep mk tex mode st j) k hkl ?_
        rw [hstep]
        simp only [List.map_append, List.mem_append, List.map_cons, List.map_nil,
          List.mem_singleton]
        rintro (h | h)
        · exact hnot h
        · exact hkj h

/-! ## Lemmas: keys and idempotence of `update_chunks` -/

lemma update_chunks_keys (mk : ℤ → ℕ → ℝ) (tex : List FeatureKind) (mode : Mode)
    (st : TerrainState) (c : ℤ × ℤ) (r : ℕ) (j : ℤ × ℤ) :
    j ∈ (update_chunks mk tex mode st c r).chunks.map Prod.fst ↔ j ∈ window c r := by
  unfold update_chunks
  rw [keys_foldl_createStep]
  constructor
  · rintro (h | h)
    · obtain ⟨p, hp, rfl⟩ := List.mem_map.mp h
      have hf := List.mem_filter.mp hp
      exact of_decide_eq_true hf.2
    · exact h
  · intro h
    exact Or.inr h

lemma update_chunks_idem (mk : ℤ → ℕ → ℝ) (tex : List FeatureKind) (mode : Mode)
    (st : TerrainState) (c : ℤ × ℤ) (r : ℕ) :
    update_chunks mk tex mode (update_chunks mk tex mode st c r) c r =
      update_chunks mk tex mode st c r := by
  set st2 := update_chunks mk tex mode st c r with hst2
  have hkeys : ∀ j : ℤ × ℤ, j ∈ st2.chunks.map Prod.fst ↔ j ∈ window c r := by
    rw [hst2]
    exact update_chunks_keys mk tex mode st c r
  have hfil : st2.chunks.filter (fun p => p.1 ∈ window c r) = st2.chunks := by
    rw [List.filter_eq_self]
    intro p hp
    exact decide_eq_true ((hkeys p.1).mp (List.mem_map.mpr ⟨p, hp, rfl⟩))
  show (window c r).foldl (createStep mk tex mode)
      ⟨st2.chunks.filter (fun p => p.1 ∈ window c r), st2.sceneGround,
        st2.sceneObjects, st2.sceneWalls⟩ = st2
  rw [hfil]
  exact foldl_createStep_no_new mk tex mode (window c r) st2
    (fun k hk => (hkeys k).mpr hk)

/-! ## Claim C1 -/

/-- C1 counterexample: the claim asserts that for every tile the generator
computes as the spec's steps dictate, the first rotation's sine term scaled
by `π`. At tile `(10, 0)` this fails: the source (line 60) scales the sine
term by the literal `3.14`, and `sin(0.5) * (π - 3.14) ≠ 0`, so the rotation
angle the code feeds to `rotate` differs from the spec's. -/
theorem C1_counterexample :
    ¬ (qtCombined 10 0 = specCombinedPi 10 0 ∧
       qtRot1Angle 10 0 = specRot1AnglePi 10 0) := by
  rintro ⟨-, h⟩
  have hpi1 : (3.14 : ℝ) < Real.pi := by
    have := Real.pi_gt_d6
    linarith
  have hpi2 : Real.pi < 3.15 := by
    have := Real.pi_lt_d6
    linarith
  have hs1 : (0 : ℝ) < Real.sin 0.5 :=
    Real.sin_pos_of_pos_of_lt_pi (by norm_num) (by linarith)
  have hs2 : Real.sin 0.5 ≤ 1 := Real.sin_le_one _
  have e1 : qtRot1Angle 10 0 = normAngle (3.14 + Real.sin 0.5 * 3.14) := by
    unfold qtRot1Angle
    norm_num
  have e2 : specRot1AnglePi 10 0 = normAngle (3.14 + Real.sin 0.5 * Real.pi) := by
    unfold specRot1AnglePi
    norm_num
  rw [e1, e2] at h
  rw [normAngle_eq_self (by nlinarith) (by nlinarith),
    normAngle_eq_self (by nlinarith) (by nlinarith)] at h
  nlinarith

/-- C1 amended: in quantum mode the generator computes the density by the
spec's steps with the first rotation's sine term scaled by the literal
`3.14` (not `π`); all other steps and the final combination
`(density + variation*0.5)/1.5` are exactly as the spec states. -/
theorem C1_quantum_pipeline (x y : ℤ) :
    qtCombined x y = specCombined314 x y ∧
    qtRot1Angle x y =
      normAngle (x * 0.314 + y * 0.271 + Real.sin (x * 0.05) * 3.14) ∧
    qtCombined x y = (qtDensity x y + qtVariation x y * 0.5) / 1.5 :=
  ⟨rfl, rfl, rfl⟩

/-- Witness for the amended C1 at tile `(0, 0)`. -/
theorem C1_quantum_pipeline_witness :
    qtCombined 0 0 = specCombined314 0 0 :=
  (C1_quantum_pipeline 0 0).1

/-! ## Claim C2 -/

/-- C2: in quantum mode the combined score is mapped through the fixed
ordered strict-upper-bound bands, ties resolving to the first matching band;
in particular a combined value of exactly `0.65` maps to the thin tree, not
to none. -/
theorem C2_threshold_bands (c : ℝ) (x y : ℤ) :
    quantum_terrain x y = classifyBand (qtCombined x y) x y ∧
    (c < 0.65 → classifyBand c x y = none) ∧
    (0.65 ≤ c → c < 0.68 → classifyBand c x y = some .treeThinFall) ∧
    (0.68 ≤ c → c < 0.70 → classifyBand c x y = some .treeDefaultFall) ∧
    (0.70 ≤ c → c < 0.72 → classifyBand c x y = some .treeOakFall) ∧
    (0.72 ≤ c → c < 0.75 → classifyBand c x y = some .stoneLarge) ∧
    (0.75 ≤ c → c < 0.77 → classifyBand c x y = some .log) ∧
    (0.77 ≤ c → (x + y) % 3 = 0 → classifyBand c x y = some .stoneTall) ∧
    (0.77 ≤ c → (x + y) % 3 ≠ 0 → classifyBand c x y = some .bushSmall) ∧
    classifyBand (0.65 : ℝ) x y = some .treeThinFall := by
  refine ⟨rfl, ?_, ?_, ?_, ?_, ?_, ?_, ?_, ?_, ?_⟩
  · intro h1
    unfold classifyBand
    rw [if_pos h1]
  · intro h1 h2
    unfold classifyBand
    rw [if_neg (not_lt.mpr h1), if_pos h2]
  · intro h1 h2
    unfold classifyBand
    rw [if_neg (by linarith), if_neg (not_lt.mpr h1), if_pos h2]
  · intro h1 h2
    unfold classifyBand
    rw [if_neg (by linarith), if_neg (by linarith), if_neg (not_lt.mpr h1), if_pos h2]
  · intro h1 h2
    unfold classifyBand
    rw [if_neg (by linarith), if_neg (by linarith), if_neg (by linarith),
      if_neg (not_lt.mpr h1), if_pos h2]
  · intro h1 h2
    unfold classifyBand
    rw [if_neg (by linarith), if_neg (by linarith), if_neg (by linarith),
      if_neg (by linarith), if_neg (not_lt.mpr h1), if_pos h2]
  · intro h1 h3
    unfold classifyBand
    rw [if_neg (by linarith), if_neg (by linarith), if_neg (by linarith),
      if_neg (by linarith), if_neg (by linarith), if_neg (not_lt.mpr h1), if_pos h3]
  · intro h1 h3
    unfold classifyBand
    rw [if_neg (by linarith), if_neg (by linarith), if_neg (by linarith),
      if_neg (by linarith), if_neg (by linarith), if_neg (not_lt.mpr h1), if_neg h3]
  · unfold classifyBand
    rw [if_neg (by norm_num), if_pos (by norm_num)]

/-- Witness for C2 at a concrete combined score. -/
theorem C2_threshold_bands_witness :
    classifyBand (0.66 : ℝ) 0 0 = some .treeThinFall :=
  (C2_threshold_bands (0.66 : ℝ) 0 0).2.2.1 (by norm_num) (by norm_num)

/-! ## Claim C3 -/

/-- C3 counterexample: the claim asserts chunk bucketing takes the
mathematical floor of the quotient, including for negative projected
coordinates. At `(sx, sy) = (-512, 0)` the source's `int()` (line 280)
truncates `-0.5` toward zero, giving chunk x-coordinate `0`, while the floor
is `-1`. -/
theorem C3_counterexample :
    ¬ (screen_to_chunk (-512) 0 =
      (⌊(-512 : ℝ) / ((TILE_WIDTH : ℝ) * (CHUNK_SIZE : ℝ) / 2)⌋,
       ⌊(0 : ℝ) / ((TILE_HEIGHT : ℝ) * (CHUNK_SIZE : ℝ) / 2)⌋)) := by
  intro h
  have h1 := congrArg Prod.fst h
  have hq : (-512 : ℝ) / ((TILE_WIDTH : ℝ) * (CHUNK_SIZE : ℝ) / 2) = -(1 / 2) := by
    norm_num [TILE_WIDTH, CHUNK_SIZE]
  have hL : (screen_to_chunk (-512) 0).1 = 0 := by
    unfold screen_to_chunk truncInt
    simp only [hq]
    rw [if_neg (by norm_num)]
    norm_num
  have hR : ⌊(-512 : ℝ) / ((TILE_WIDTH : ℝ) * (CHUNK_SIZE : ℝ) / 2)⌋ = -1 := by
    rw [hq]
    norm_num
  rw [hL, hR] at h1
  exact absurd h1 (by norm_num)

/-- C3 amended: `screen_to_chunk` returns the truncation toward zero of each
quotient (Python `int()`); for non-negative projected coordinates this
coincides with the mathematical floor, but for negative coordinates it is
the ceiling, not the floor. -/
theorem C3_bucketing (sx sy : ℝ) :
    screen_to_chunk sx sy =
      (truncInt (sx / ((TILE_WIDTH : ℝ) * (CHUNK_SIZE : ℝ) / 2)),
       truncInt (sy / ((TILE_HEIGHT : ℝ) * (CHUNK_SIZE : ℝ) / 2))) ∧
    (0 ≤ sx → 0 ≤ sy → screen_to_chunk sx sy =
      (⌊sx / ((TILE_WIDTH : ℝ) * (CHUNK_SIZE : ℝ) / 2)⌋,
       ⌊sy / ((TILE_HEIGHT : ℝ) * (CHUNK_SIZE : ℝ) / 2)⌋)) ∧
    (sx < 0 →
      (screen_to_chunk sx sy).1 = ⌈sx / ((TILE_WIDTH : ℝ) * (CHUNK_SIZE : ℝ) / 2)⌉) := by
  refine ⟨rfl, fun hx hy => ?_, fun hx => ?_⟩
  · unfold screen_to_chunk truncInt
    rw [if_pos, if_pos]
    · exact div_nonneg hy (by norm_num [TILE_HEIGHT, CHUNK_SIZE])
    · exact div_nonneg hx (by norm_num [TILE_WIDTH, CHUNK_SIZE])
  · unfold screen_to_chunk truncInt
    have hneg : sx / ((TILE_WIDTH : ℝ) * (CHUNK_SIZE : ℝ) / 2) < 0 := by
      apply div_neg_of_neg_of_pos hx
      norm_num [TILE_WIDTH, CHUNK_SIZE]
    rw [if_neg (not_le.mpr hneg)]

/-- Witness for the amended C3 at a concrete non-negative position. -/
theorem C3_bucketing_witness :
    screen_to_chunk 2048 512 =
      (⌊(2048 : ℝ) / ((TILE_WIDTH : ℝ) * (CHUNK_SIZE : ℝ) / 2)⌋,
       ⌊(512 : ℝ) / ((TILE_HEIGHT : ℝ) * (CHUNK_SIZE : ℝ) / 2)⌋) :=
  (C3_bucketing 2048 512).2.1 (by norm_num) (by norm_num)

/-! ## Claim C4 -/

/-- C4: after `update_chunks` with viewpoint chunk `c` and render distance
`r`, the key set of the resident-chunk map is exactly the square of
`(2r+1)²` coordinates centred at `c` — no extras, no omissions — and
re-running it with the same inputs on the already-satisfied store changes
nothing. -/
theorem C4_window_invariant (mk : ℤ → ℕ → ℝ) (tex : List FeatureKind)
    (mode : Mode) (st : TerrainState) (c : ℤ × ℤ) (r : ℕ)
    (hnd : (st.chunks.map Prod.fst).Nodup) :
    (∀ j : ℤ × ℤ, j ∈ (update_chunks mk tex mode st c r).chunks.map Prod.fst ↔
      (c.1 - r ≤ j.1 ∧ j.1 ≤ c.1 + r ∧ c.2 - r ≤ j.2 ∧ j.2 ≤ c.2 + r)) ∧
    ((update_chunks mk tex mode st c r).chunks.map Prod.fst).length =
      (2 * r + 1) ^ 2 ∧
    update_chunks mk tex mode (update_chunks mk tex mode st c r) c r =
      update_chunks mk tex mode st c r := by
  refine ⟨?_, ?_, update_chunks_idem mk tex mode st c r⟩
  · intro j
    rw [update_chunks_keys, mem_window]
  · have hnd2 : ((update_chunks mk tex mode st c r).chunks.map Prod.fst).Nodup := by
      unfold update_chunks
      apply nodup_keys_foldl_createStep
      exact List.Sublist.nodup (List.Sublist.map Prod.fst (List.filter_sublist _)) hnd
    have hsub1 : (update_chunks mk tex mode st c r).chunks.map Prod.fst ⊆
        window c r := by
      intro j hj
      exact (update_chunks_keys mk tex mode st c r j).mp hj
    have hsub2 : window c r ⊆
        (update_chunks mk tex mode st c r).chunks.map Prod.fst := by
      intro j hj
      exact (update_chunks_keys mk tex mode st c r j).mpr hj
    have hperm := List.Subperm.antisymm
      (List.Nodup.subperm hnd2 hsub1)
      (List.Nodup.subperm (window_nodup c r) hsub2)
    rw [hperm.length_eq, window_length]

/-- Witness for C4 on the empty store. -/
theorem C4_window_invariant_witness :
    ((0, 0) : ℤ × ℤ) ∈ (update_chunks (fun _ _ => 0) [] .quantum
      ⟨[], [], [], []⟩ (0, 0) 0).chunks.map Prod.fst :=
  ((C4_window_invariant (fun _ _ => 0) [] .quantum ⟨[], [], [], []⟩ (0, 0) 0
    (by simp)).1 (0, 0)).mpr (by norm_num)

/-! ## Claim C5 -/

/-- C5 evaluation: the claim asserts that evicting a resident chunk drops
its ownership *and* invalidates its placements held by the scene. In the
source (lines 459-460) eviction only deletes the dict entry: nothing is ever
removed from the scene's ground, objects or walls lists (the
`chunk_sprites` saved "so we can remove them later" at line 392 are never
used), so every placement that was in the scene before `update_chunks`,
including those of evicted chunks, is still reachable there afterwards. -/
theorem C5_eviction_leaves_scene (mk : ℤ → ℕ → ℝ) (tex : List FeatureKind)
    (mode : Mode) (st : TerrainState) (c : ℤ × ℤ) (r : ℕ) (k : ℤ × ℤ)
    (_hk : k ∈ st.chunks.map Prod.fst)
    (hout : k ∉ window c r) :
    k ∉ (update_chunks mk tex mode st c r).chunks.map Prod.fst ∧
    (∀ p ∈ st.sceneGround, p ∈ (update_chunks mk tex mode st c r).sceneGround) ∧
    (∀ p ∈ st.sceneObjects, p ∈ (update_chunks mk tex mode st c r).sceneObjects) ∧
    (∀ p ∈ st.sceneWalls, p ∈ (update_chunks mk tex mode st c r).sceneWalls) := by
  refine ⟨fun h => hout ((update_chunks_keys mk tex mode st c r k).mp h),
    ?_, ?_, ?_⟩ <;>
    intro p hp
  · exact (scene_foldl_createStep mk tex mode (window c r)
      ⟨st.chunks.filter (fun q => q.1 ∈ window c r), st.sceneGround,
        st.sceneObjects, st.sceneWalls⟩).1 p hp
  · exact (scene_foldl_createStep mk tex mode (window c r)
      ⟨st.chunks.filter (fun q => q.1 ∈ window c r), st.sceneGround,
        st.sceneObjects, st.sceneWalls⟩).2.1 p hp
  · exact (scene_foldl_createStep mk tex mode (window c r)
      ⟨st.chunks.filter (fun q => q.1 ∈ window c r), st.sceneGround,
        st.sceneObjects, st.sceneWalls⟩).2.2 p hp

/-- Witness for C5: a store holding chunk `(9, 9)` with a collidable wall
placement in the scene; reconciling around `(0, 0)` with render distance `4`
evicts `(9, 9)` from the chunk map, yet the wall placement is still in the
scene's walls list. -/
theorem C5_eviction_leaves_scene_witness :
    ((9, 9) : ℤ × ℤ) ∉ (update_chunks (fun _ _ => 0) [] .quantum
      ⟨[((9, 9), ⟨[], [], []⟩)], [], [],
        [⟨((0 : ℝ), (0 : ℝ)), .log, true, none⟩]⟩ (0, 0) 4).chunks.map Prod.fst ∧
    (⟨((0 : ℝ), (0 : ℝ)), .log, true, none⟩ : FeaturePlacement) ∈
      (update_chunks (fun _ _ => 0) [] .quantum
        ⟨[((9, 9), ⟨[], [], []⟩)], [], [],
          [⟨((0 : ℝ), (0 : ℝ)), .log, true, none⟩]⟩ (0, 0) 4).sceneWalls := by
  have h := C5_eviction_leaves_scene (fun _ _ => 0) [] .quantum
    ⟨[((9, 9), ⟨[], [], []⟩)], [], [],
      [⟨((0 : ℝ), (0 : ℝ)), .log, true, none⟩]⟩ (0, 0) 4 (9, 9)
    (by simp) (by rw [mem_window]; norm_num)
  exact ⟨h.1, h.2.2.2 _ (by simp)⟩

/-! ## Claim C6 -/

/-- C6 counterexample: the claim asserts that a missing texture leaves the
tile's feature placement, collidable flag and collision geometry unchanged,
degrading only the visual. In the source (line 416,
`if element and element in self.textures`) a missing texture drops the
feature placement entirely. Concretely, with the log texture absent and a
draw stream whose draws are all `0.42` (selecting the log), the tile at
`(0, 0)` emits no feature at all, while with all textures loaded it emits a
collidable log placement. -/
theorem C6_counterexample :
    ¬ (processTile (allTextures.erase .log) .random 0 0 (fun _ => 0.42) =
       processTile allTextures .random 0 0 (fun _ => 0.42)) := by
  intro h
  have hg : (generate_terrain_element .random 0 0 (fun _ => (0.42 : ℝ))).1 =
      some .log := by
    unfold generate_terrain_element
    norm_num
  have h1 := congrArg (fun p => p.1.2) h
  rw [processTile_eq, processTile_eq, hg] at h1
  simp only at h1
  rw [if_neg (by decide), if_pos (by decide)] at h1
  exact Option.noConfusion h1

/-- C6 amended: a missing texture does not change the ground placements (per
tile and for the whole chunk), the draw-stream consumption, or the
processing of tiles whose generated element has a loaded texture, but it
drops the feature placement (and with it the collidable flag and hitbox) of
any tile whose generated element's texture is missing. -/
theorem C6_texture_fallback (tex : List FeatureKind) (mode : Mode)
    (x y cx cy : ℤ) (s : ℕ → ℝ) :
    (processTile tex mode x y s).1.1 = (processTile allTextures mode x y s).1.1 ∧
    (processTile tex mode x y s).2 = (processTile allTextures mode x y s).2 ∧
    ((generate_terrain_element mode x y s).1 = none →
      (processTile tex mode x y s).1.2 = none) ∧
    (∀ e : FeatureKind, (generate_terrain_element mode x y s).1 = some e →
      e ∉ tex → (processTile tex mode x y s).1.2 = none) ∧
    (∀ e : FeatureKind, (generate_terrain_element mode x y s).1 = some e →
      e ∈ tex → (processTile tex mode x y s).1.2 = some (mkFeature x y e)) ∧
    (create_chunk tex mode cx cy s).ground =
      (create_chunk allTextures mode cx cy s).ground := by
  refine ⟨?_, ?_, ?_, ?_, ?_, create_chunk_ground_tex tex allTextures mode cx cy s⟩
  · rw [processTile_eq, processTile_eq]
  · rw [processTile_eq, processTile_eq]
  · intro hn
    rw [processTile_eq, hn]
  · intro e he ht
    rw [processTile_eq, he]
    simp only
    rw [if_neg ht]
  · intro e he ht
    rw [processTile_eq, he]
    simp only
    rw [if_pos ht]

/-- Witness for the amended C6: with no loaded textures, a tile whose
generator draw selects the bush emits no feature placement. -/
theorem C6_texture_fallback_witness :
    (processTile [] .random 0 0 (fun _ => 0.45)).1.2 = none := by
  have hg : (generate_terrain_element .random 0 0 (fun _ => (0.45 : ℝ))).1 =
      some .bushSmall := by
    unfold generate_terrain_element
    norm_num
  exact (C6_texture_fallback [] .random 0 0 0 0 (fun _ => 0.45)).2.2.2.1
    .bushSmall hg (by simp)

/-! ## Claim C7 -/

/-- C7: for every PhaseModel, the phase lies in `[0, 2π)` after construction
from any integer pair and after every `hadamard` and `rotate` call, and
`measure` returns `(cos(phase)+1)/2`, which lies in `[0, 1]` (in this
functional model `measure` is a plain function of the state and mutates
nothing). -/
theorem C7_phase_invariant :
    (∀ x y : ℤ, 0 ≤ (QuantumState.init x y).phase ∧
      (QuantumState.init x y).phase < 2 * Real.pi) ∧
    (∀ q : QuantumState, 0 ≤ q.hadamard.phase ∧ q.hadamard.phase < 2 * Real.pi) ∧
    (∀ (q : QuantumState) (a : ℝ),
      0 ≤ (q.rotate a).phase ∧ (q.rotate a).phase < 2 * Real.pi) ∧
    (∀ q : QuantumState, q.measure = (Real.cos q.phase + 1) / 2 ∧
      0 ≤ q.measure ∧ q.measure ≤ 1) := by
  refine ⟨fun x y => ⟨normAngle_nonneg _, normAngle_lt_two_pi _⟩,
    fun q => ⟨normAngle_nonneg _, normAngle_lt_two_pi _⟩,
    fun q a => ⟨normAngle_nonneg _, normAngle_lt_two_pi _⟩,
    fun q => ⟨rfl, ?_, ?_⟩⟩
  · have h := Real.neg_one_le_cos q.phase
    unfold QuantumState.measure
    linarith
  · have h := Real.cos_le_one q.phase
    unfold QuantumState.measure
    linarith


/-- Witness for C7 at the concrete state built from tile `(0, 0)`. -/
theorem C7_phase_invariant_witness :
    0 ≤ (QuantumState.init 0 0).phase ∧ (QuantumState.init 0 0).phase < 2 * Real.pi :=
  C7_phase_invariant.1 0 0

/-! ## Claim C8 -/

/-- C8: `get_chunk_seed` is a pure function of the master seed and the chunk
coordinate (computing it twice at `(3, -2)` yields the same integer), and for
every chunk coordinate the result lies in `[0, 2^31 - 2]`. -/
theorem C8_chunk_seed_stable_and_bounded :
    get_chunk_seed 3 (-2) = get_chunk_seed 3 (-2) ∧
    ∀ cx cy : ℤ, 0 ≤ get_chunk_seed cx cy ∧ get_chunk_seed cx cy ≤ 2 ^ 31 - 2 := by
  refine ⟨rfl, fun cx cy => ?_⟩
  have hm : (0 : ℝ) < (2 : ℝ) ^ 31 - 1 := by norm_num
  have key : ∀ a : ℝ, 0 ≤ ⌊fmodReal a ((2 : ℝ) ^ 31 - 1)⌋ ∧
      ⌊fmodReal a ((2 : ℝ) ^ 31 - 1)⌋ ≤ 2 ^ 31 - 2 := by
    intro a
    constructor
    · exact Int.floor_nonneg.mpr (fmodReal_nonneg _ hm)
    · have h1 : fmodReal a ((2 : ℝ) ^ 31 - 1) < ((2 ^ 31 - 1 : ℤ) : ℝ) := by
        have hc : ((2 ^ 31 - 1 : ℤ) : ℝ) = (2 : ℝ) ^ 31 - 1 := by
          push_cast
          norm_num
        rw [hc]
        exact fmodReal_lt _ hm
      have h2 := Int.floor_lt.mpr h1
      omega
  simp only [get_chunk_seed]
  exact key _


/-- Witness for C8 at chunk coordinate `(3, -2)`. -/
theorem C8_chunk_seed_stable_and_bounded_witness :
    0 ≤ get_chunk_seed 3 (-2) ∧ get_chunk_seed 3 (-2) ≤ 2 ^ 31 - 2 :=
  C8_chunk_seed_stable_and_bounded.2 3 (-2)

/-! ## Claim C9 -/

/-- C9: chunk creation is idempotent in both modes: a chunk created inside
the window, evicted by a reconcile around a distant viewpoint, and
re-created on re-entry carries exactly the same placement data both times —
the data is a pure function of the chunk coordinate, the mode, the texture
table and the seeded draw stream `mk (get_chunk_seed cx cy)` — and in
quantum mode the created data does not depend on the draw stream at all
(it derives solely from absolute tile coordinates). -/
theorem C9_idempotent_creation (mk : ℤ → ℕ → ℝ) (tex : List FeatureKind)
    (mode : Mode) (st : TerrainState) (c c2 : ℤ × ℤ) (r r2 : ℕ) (k : ℤ × ℤ)
    (hk0 : k ∉ st.chunks.map Prod.fst)
    (h1 : k ∈ window c r)
    (h2 : k ∉ window c2 r2) :
    lookupChunk k (update_chunks mk tex mode st c r).chunks =
      some (create_chunk tex mode k.1 k.2 (mk (get_chunk_seed k.1 k.2))) ∧
    lookupChunk k (update_chunks mk tex mode
      (update_chunks mk tex mode st c r) c2 r2).chunks = none ∧
    lookupChunk k (update_chunks mk tex mode (update_chunks mk tex mode
      (update_chunks mk tex mode st c r) c2 r2) c r).chunks =
      some (create_chunk tex mode k.1 k.2 (mk (get_chunk_seed k.1 k.2))) ∧
    (∀ (s1 s2 : ℕ → ℝ) (cx cy : ℤ),
      create_chunk tex .quantum cx cy s1 = create_chunk tex .quantum cx cy s2) := by
  have hwkeys : ∀ (st3 : TerrainState) (c3 : ℤ × ℤ) (r3 : ℕ),
      k ∉ st3.chunks.map Prod.fst → k ∈ window c3 r3 →
      lookupChunk k (update_chunks mk tex mode st3 c3 r3).chunks =
        some (create_chunk tex mode k.1 k.2 (mk (get_chunk_seed k.1 k.2))) := by
    intro st3 c3 r3 hnot hin
    unfold update_chunks
    apply lookup_foldl_createStep mk tex mode (window c3 r3) _ k hin
    intro hmem
    obtain ⟨p, hp, rfl⟩ := List.mem_map.mp hmem
    exact hnot (List.mem_map.mpr ⟨p, (List.mem_filter.mp hp).1, rfl⟩)
  have hs1 := hwkeys st c r hk0 h1
  have hk2 : k ∉ (update_chunks mk tex mode
      (update_chunks mk tex mode st c r) c2 r2).chunks.map Prod.fst :=
    fun h => h2 ((update_chunks_keys mk tex mode _ c2 r2 k).mp h)
  refine ⟨hs1, lookupChunk_eq_none hk2, hwkeys _ c r hk2 h1, ?_⟩
  intro s1 s2 cx cy
  exact create_chunk_quantum_stream tex cx cy s1 s2

/-- Witness for C9: chunk `(0, 0)` created, evicted by a reconcile around
`(9, 9)`, and re-created, yields the same chunk data. -/
theorem C9_idempotent_creation_witness :
    lookupChunk ((0, 0) : ℤ × ℤ) (update_chunks (fun _ _ => 0) [] .quantum
      (update_chunks (fun _ _ => 0) [] .quantum
        (update_chunks (fun _ _ => 0) [] .quantum ⟨[], [], [], []⟩ (0, 0) 0)
        (9, 9) 0) (0, 0) 0).chunks =
      some (create_chunk [] .quantum 0 0
        ((fun _ _ => (0 : ℝ)) (get_chunk_seed 0 0))) :=
  (C9_idempotent_creation (fun _ _ => 0) [] .quantum ⟨[], [], [], []⟩
    (0, 0) (9, 9) 0 0 (0, 0) (by simp)
    (by rw [mem_window]; norm_num) (by rw [mem_window]; norm_num)).2.2.1

/-! ## Claim C10 -/

/-- C10: quantum mode only ever returns no feature or one of the seven kinds
thin tree, default tree, oak tree, large stone, log, tall stone, small bush;
the blocks tree, fat tree and large log are never produced in quantum mode
but each is producible in random mode; and every kind either mode can
produce has a defined collidability classification (`has_collision` is a
total function, with the values listed). -/
theorem C10_quantum_element_range :
    (∀ x y : ℤ, quantum_terrain x y = none ∨
      quantum_terrain x y = some .treeThinFall ∨
      quantum_terrain x y = some .treeDefaultFall ∨
      quantum_terrain x y = some .treeOakFall ∨
      quantum_terrain x y = some .stoneLarge ∨
      quantum_terrain x y = some .log ∨
      quantum_terrain x y = some .stoneTall ∨
      quantum_terrain x y = some .bushSmall) ∧
    (∀ x y : ℤ, quantum_terrain x y ≠ some .treeBlocksFall ∧
      quantum_terrain x y ≠ some .treeFatFall ∧
      quantum_terrain x y ≠ some .logLarge) ∧
    (∃ s : ℕ → ℝ, ∃ x y : ℤ,
      (generate_terrain_element .random x y s).1 = some .treeBlocksFall) ∧
    (∃ s : ℕ → ℝ, ∃ x y : ℤ,
      (generate_terrain_element .random x y s).1 = some .treeFatFall) ∧
    (∃ s : ℕ → ℝ, ∃ x y : ℤ,
      (generate_terrain_element .random x y s).1 = some .logLarge) ∧
    (has_collision .treeBlocksFall = true ∧ has_collision .treeDefaultFall = true ∧
     has_collision .treeFatFall = true ∧ has_collision .treeThinFall = true ∧
     has_collision .treeOakFall = true ∧ has_collision .stoneTall = true ∧
     has_collision .stoneLarge = true ∧ has_collision .log = true ∧
     has_collision .logLarge = true ∧ has_collision .bushSmall = false) := by
  refine ⟨?_, ?_, ?_, ?_, ?_, by decide⟩
  · intro x y
    unfold quantum_terrain classifyBand
    split_ifs <;> tauto
  · intro x y
    unfold quantum_terrain classifyBand
    split_ifs <;> simp
  · refine ⟨fun _ => 0.1, 0, 0, ?_⟩
    unfold generate_terrain_element
    norm_num
  · refine ⟨fun n => if n = 0 then 0.1 else 0.8, 0, 0, ?_⟩
    unfold generate_terrain_element
    norm_num
  · refine ⟨fun n => if n = 0 then 0.42 else 0.7, 0, 0, ?_⟩
    unfold generate_terrain_element
    norm_num

/-- Witness for C10 at tile `(0, 0)`. -/
theorem C10_quantum_element_range_witness :
    quantum_terrain 0 0 ≠ some .treeBlocksFall ∧
    quantum_terrain 0 0 ≠ some .treeFatFall ∧
    quantum_terrain 0 0 ≠ some .logLarge :=
  C10_quantum_element_range.2.1 0 0
